import Mathlib

/-!
Verification model of `find_duplicates.py` (repository RemovemoveDuplicates).

The script scans a directory tree, hashes every non-excluded file with MD5,
and moves every later file whose digest was already seen into a duplicates
folder, disambiguating colliding destination names with a numeric suffix.

Shallow embedding conventions:
* strings and byte contents are `List Char`;
* the filesystem interaction of one traversal step is captured by a
  `Candidate` record carrying the data `os.walk` yields (`root`, file name)
  together with oracles for the outcomes of the fallible operations the
  script performs on that file (`open`, the read inside `calculate_md5`,
  `Path.stat`, `shutil.move`);
* `hashlib.md5(...).hexdigest()` is an external library; it is modelled by a
  function parameter `h : Str → Str` applied to the accumulated bytes, so
  every theorem below holds for an arbitrary hexdigest function;
* Python exceptions that the script does not catch are modelled by
  `Except Unit`: `.error ()` is an uncaught exception aborting the run;
* the contents of the duplicates folder are modelled by the list of file
  names currently present in it (`RunState.dupContents`).
-/

namespace FindDup

/-- Strings (and byte strings) are lists of characters. -/
abbrev Str := List Char

/-- Coerce a Lean string literal to the model's string type. -/
def str (s : String) : Str := s.data

/-- The path separator (`os.sep`). -/
def sep : Char := '/'

/-- Python `str.lower`, restricted to the per-character case mapping. -/
def lower (s : Str) : Str := s.map Char.toLower

/-- `Path(root) / name`: join a directory path and a file name. -/
def joinPath (a b : Str) : Str := a ++ sep :: b

/-- Python `filepath.split(os.sep)`. -/
def splitOnSep : Str → List Str
  | [] => [[]]
  | c :: rest =>
    if c = sep then [] :: splitOnSep rest
    else
      match splitOnSep rest with
      | [] => [[c]]
      | a :: as => (c :: a) :: as

/-- The final path component (`Path(p).name`). -/
def lastComponent (p : Str) : Str := (splitOnSep p).getLastD []

/-- Python `s.find(pat) != -1`: `pat` occurs as a contiguous substring. -/
def containsSubstring (s pat : Str) : Bool :=
  (List.range (s.length + 1)).any fun i => pat.isPrefixOf (s.drop i)

/-- The `ignore_folders` table of `should_ignore_dir`. -/
def ignore_folders : List Str := [str "Program files", str "Program files (x86)"]

/-- `should_ignore_dir(directory)`: some ignored folder name occurs as a
substring of the lowercased directory path (`str.find(...) != -1`). -/
def should_ignore_dir (directory : Str) : Bool :=
  ignore_folders.any fun ignore_folder =>
    containsSubstring (lower directory) (lower ignore_folder)

/-- The `exclude_startswith` table of `is_hidden`. -/
def exclude_startswith : List Char := ['.', '~', '_']

/-- Python `part.startswith(tuple(exclude_startswith))` for single-character
markers: the part is nonempty and its first character is a marker. -/
def startsWithMarker (part : Str) : Bool :=
  match part with
  | [] => false
  | c :: _ => exclude_startswith.contains c

/-- `is_hidden(filepath)`: some `os.sep`-separated segment of the argument
starts with one of the markers. -/
def is_hidden (filepath : Str) : Bool :=
  (splitOnSep filepath).any startsWithMarker

/-- The `exclude_extensions` table of `find_and_move_duplicates`. -/
def exclude_extensions : List Str :=
  [str "ini", str "rdp", str "exe", str "marker", str "dll", str "lib",
   str "cmd", str "json", str "sys", str "tmp", str "index", str "marker"]

/-- Python `file.endswith(tuple(exclude_extensions))` on the lowercased name. -/
def endsWithExcluded (file : Str) : Bool :=
  exclude_extensions.any fun e => e.isSuffixOf file

/-- The string `'fail'` returned by `calculate_md5` on a read error. -/
def failMarker : Str := str "fail"

/-- Fuelled splitting of a byte string into `chunk_size` pieces, mirroring
the `f.read(chunk_size)` loop; fuel `s.length` always suffices. -/
def chunksOfAux (k : Nat) : Nat → Str → List Str
  | 0, _ => []
  | fuel + 1, s => if s = [] then [] else s.take k :: chunksOfAux k fuel (s.drop k)

/-- The chunk sequence produced by `iter(lambda: f.read(chunk_size), b"")`.
Python's `f.read(0)` returns `b""` at once, so chunk size `0` yields no
chunks at all. -/
def chunksOf (k : Nat) (s : Str) : List Str :=
  if k = 0 then [] else chunksOfAux k s.length s

/-- The byte string accumulated by the successive `md5.update(chunk)` calls. -/
def md5Bytes (chunks : List Str) : Str :=
  chunks.foldl (fun acc chunk => acc ++ chunk) []

/-- `calculate_md5(file_path, chunk_size)` given the outcome of reading the
file: `none` models a read error anywhere in the `open`/`read` loop (the
bare `except` turns it into `'fail'`), `some c` models reading content `c`.
`h` is the `hexdigest` of the external `hashlib.md5`. -/
def calculate_md5 (h : Str → Str) (content : Option Str) (chunk_size : Nat) : Str :=
  match content with
  | none => failMarker
  | some c => h (md5Bytes (chunksOf chunk_size c))

/-- `calculate_md5` as a function of the file path, reading through an
explicit filesystem map (path to readable content). -/
def calculate_md5_file (h : Str → Str) (fileSystem : Str → Option Str)
    (file_path : Str) (chunk_size : Nat) : Str :=
  calculate_md5 h (fileSystem file_path) chunk_size

/-- Index of the last `'.'` in a name (Python `name.rfind('.')`), if any. -/
def rfindDot (name : Str) : Option Nat :=
  match name.reverse.findIdx? (fun c => c = '.') with
  | none => none
  | some j => some (name.length - 1 - j)

/-- `PurePath.suffix` of a single path component: the part from the last dot
on, provided that dot is neither the first nor the last character. -/
def pathSuffix (name : Str) : Str :=
  match rfindDot name with
  | none => []
  | some i => if 0 < i ∧ i + 1 < name.length then name.drop i else []

/-- `PurePath.stem` of a single path component. -/
def pathStem (name : Str) : Str :=
  match rfindDot name with
  | none => name
  | some i => if 0 < i ∧ i + 1 < name.length then name.take i else name

/-- Decimal rendering of the counter, as interpolated by the f-string. -/
def natRepr (n : Nat) : Str := (Nat.repr n).data

/-- One iteration of the renaming loop:
`f"{new_path.stem}_{counter}{new_path.suffix}"`. -/
def nextCand (name : Str) (counter : Nat) : Str :=
  pathStem name ++ '_' :: (natRepr counter ++ pathSuffix name)

/-- Length of the longest name in a list. -/
def maxLen (l : List Str) : Nat := l.foldr (fun s m => max s.length m) 0

/-- Fuelled unfolding of the `while new_path.exists():` loop over the set of
names currently present in the duplicates folder. -/
def disambigAux (contents : List Str) : Nat → Str → Nat → Str
  | 0, name, _ => name
  | fuel + 1, name, counter =>
    if name ∈ contents then disambigAux contents fuel (nextCand name counter) (counter + 1)
    else name

/-- The destination name chosen by the renaming loop (counter starts at 1).
Every iteration lengthens the candidate name, so `maxLen contents + 1`
rounds of fuel are enough to leave every name of `contents` behind; with
that much fuel the fuelled loop computes exactly what the unbounded
`while` loop does. -/
def disambiguate (contents : List Str) (name : Str) : Str :=
  disambigAux contents (maxLen contents + 1) name 1

/-- One file yielded by the `os.walk` traversal, together with the outcomes
of the fallible filesystem operations the script performs on it:
`content` is what reading the file delivers (`none` = read error inside
`calculate_md5`), `openOk` the outcome of the preliminary `open` probe,
`statOk` whether `file_path.stat()` succeeds, `moveOk` whether
`shutil.move` succeeds, and `ctime`/`mtime` the stat timestamps. -/
structure Candidate where
  root : Str
  name : Str
  content : Option Str
  openOk : Bool
  statOk : Bool
  moveOk : Bool
  ctime : Nat
  mtime : Nat
deriving DecidableEq

/-- The dictionary appended to `duplicate_info` for a confirmed duplicate. -/
structure DupRecord where
  original_path : Str
  duplicate_path : Str
  moved_to : Str
  file_extension : Str
  folder_name : Str
  created_date : Nat
  modified_date : Nat
deriving DecidableEq

/-- One attempted relocation, modelled after the `Duplicate found:` log line,
with ghost observability fields for specification: `baseName` is the
destination name before disambiguation (the lowercased duplicate name),
`pre` the duplicates-folder contents immediately before the move, and
`digest` the digest that collided. -/
structure MoveEvent where
  original : Str
  src : Str
  baseName : Str
  dstName : Str
  pre : List Str
  ok : Bool
  digest : Str
deriving DecidableEq

/-- The duplicates-folder contents immediately after the attempted move. -/
def MoveEvent.post (e : MoveEvent) : List Str :=
  if e.ok then e.dstName :: e.pre else e.pre

/-- The mutable state of one run: the `file_hashes` dictionary (association
list in insertion order, keys unique), the names present in the duplicates
folder, the `duplicate_info` list and the relocation events. -/
structure RunState where
  file_hashes : List (Str × Str)
  dupContents : List Str
  records : List DupRecord
  events : List MoveEvent
deriving DecidableEq

/-- Lookup in the `file_hashes` dictionary. -/
def dictFind (d : Str) : List (Str × Str) → Option Str
  | [] => none
  | (k, v) :: rest => if k = d then some v else dictFind d rest

/-- The `DupRecord` appended for a duplicate (built, including the two
`file_path.stat()` calls, before the renaming loop runs, so `moved_to`
is the destination before disambiguation). -/
def stepRecord (dupFolder : Str) (c : Candidate) (original_path : Str) : DupRecord :=
  { original_path := original_path
    duplicate_path := joinPath c.root c.name
    moved_to := joinPath dupFolder (lower c.name)
    file_extension := pathSuffix c.name
    folder_name := lastComponent c.root
    created_date := c.ctime
    modified_date := c.mtime }

/-- The relocation event for a duplicate: the destination name is the
lowercased duplicate name run through the renaming loop against the
current duplicates-folder contents. -/
def stepEvent (h : Str → Str) (st : RunState) (c : Candidate) (original_path : Str) :
    MoveEvent :=
  { original := original_path
    src := joinPath c.root c.name
    baseName := lower c.name
    dstName := disambiguate st.dupContents (lower c.name)
    pre := st.dupContents
    ok := c.moveOk
    digest := calculate_md5 h c.content 1024 }

/-- The state after the duplicate branch (record appended, move attempted;
the destination name joins the folder contents only if the move succeeds). -/
def duplicateBranch (h : Str → Str) (dupFolder : Str) (st : RunState) (c : Candidate)
    (original_path : Str) : RunState :=
  { file_hashes := st.file_hashes
    dupContents :=
      if c.moveOk then disambiguate st.dupContents (lower c.name) :: st.dupContents
      else st.dupContents
    records := st.records ++ [stepRecord dupFolder c original_path]
    events := st.events ++ [stepEvent h st c original_path] }

/-- The body of the inner `for file in files:` loop of
`find_and_move_duplicates`, in source order: directory exclusion, hidden
name check on the bare file name, lowercasing, extension exclusion, the
`open` probe, `calculate_md5` with the `'fail'` check, then dictionary
lookup. A duplicate whose `stat()` fails aborts the whole run (the two
`stat` calls sit outside every `try`); every other failure is caught and
skips just this file. -/
def runStep (h : Str → Str) (dupFolder : Str) (st : RunState) (c : Candidate) :
    Except Unit RunState :=
  if should_ignore_dir c.root then .ok st
  else if is_hidden c.name then .ok st
  else if endsWithExcluded (lower c.name) then .ok st
  else if !c.openOk then .ok st
  else
    let file_md5 := calculate_md5 h c.content 1024
    if file_md5 = failMarker then .ok st
    else
      match dictFind file_md5 st.file_hashes with
      | some original_path =>
        if !c.statOk then .error ()
        else .ok (duplicateBranch h dupFolder st c original_path)
      | none =>
        .ok { st with file_hashes := st.file_hashes ++ [(file_md5, joinPath c.root c.name)] }

/-- Folding `runStep` over the traversal order; an uncaught exception in one
step aborts the whole run. -/
def runFiles (h : Str → Str) (dupFolder : Str) : RunState → List Candidate → Except Unit RunState
  | st, [] => .ok st
  | st, c :: cs =>
    match runStep h dupFolder st c with
    | .error e => .error e
    | .ok st1 => runFiles h dupFolder st1 cs

/-- The initial state: empty dictionary, the given pre-existing
duplicates-folder contents, no records, no events. -/
def initState (dupContents0 : List Str) : RunState :=
  { file_hashes := [], dupContents := dupContents0, records := [], events := [] }

/-- `find_and_move_duplicates(directory, duplicate_folder)`: the traversal is
abstracted to the list of candidates `os.walk` yields in order;
`dupContents0` is what the duplicates folder contains at the start. -/
def find_and_move_duplicates (h : Str → Str) (directory : List Candidate)
    (dupFolder : Str) (dupContents0 : List Str) : Except Unit RunState :=
  runFiles h dupFolder (initState dupContents0) directory

/-- A candidate survives all four skip checks and hashes successfully:
exactly the files that reach the dictionary lookup. -/
def eligible (h : Str → Str) (c : Candidate) : Bool :=
  !should_ignore_dir c.root && !is_hidden c.name &&
  !endsWithExcluded (lower c.name) && c.openOk &&
  !(calculate_md5 h c.content 1024 == failMarker)

/-- Modelled from the spec: the path of the first file in traversal order
that reaches the dictionary lookup with digest `d`. -/
def firstWithDigest (h : Str → Str) (l : List Candidate) (d : Str) : Option Str :=
  (l.find? fun c => eligible h c && (calculate_md5 h c.content 1024 == d)).map
    fun c => joinPath c.root c.name

/-! ## Properties of the renaming loop -/

theorem pathStem_append_pathSuffix (n : Str) : pathStem n ++ pathSuffix n = n := by
  unfold pathStem pathSuffix
  cases h : rfindDot n with
  | none => simp
  | some i =>
    by_cases hc : 0 < i ∧ i + 1 < n.length <;>
      simp [hc, List.take_append_drop]

theorem length_lt_nextCand (n : Str) (counter : Nat) :
    n.length < (nextCand n counter).length := by
  have h := congrArg List.length (pathStem_append_pathSuffix n)
  rw [List.length_append] at h
  simp only [nextCand, List.length_append, List.length_cons]
  omega

theorem length_le_maxLen {s : Str} {l : List Str} (h : s ∈ l) : s.length ≤ maxLen l := by
  induction l with
  | nil => cases h
  | cons a as ih =>
    rcases List.mem_cons.mp h with rfl | h2
    · simp [maxLen]
    · have := ih h2
      simp only [maxLen, List.foldr_cons] at *
      omega

theorem disambigAux_not_mem (contents : List Str) :
    ∀ (fuel : Nat) (name : Str) (counter : Nat),
      maxLen contents < name.length + fuel →
      disambigAux contents fuel name counter ∉ contents := by
  intro fuel
  induction fuel with
  | zero =>
    intro name counter hlt hmem
    simp only [disambigAux] at hmem
    exact absurd (length_le_maxLen hmem) (by omega)
  | succ fuel ih =>
    intro name counter hlt
    by_cases hmem : name ∈ contents
    · simp only [disambigAux, hmem, if_pos]
      exact ih (nextCand name counter) (counter + 1)
        (by have := length_lt_nextCand name counter; omega)
    · simp only [disambigAux, if_neg hmem]
      exact hmem

/-- The name chosen by the renaming loop is free in the duplicates folder. -/
theorem disambiguate_not_mem (contents : List Str) (name : Str) :
    disambiguate contents name ∉ contents :=
  disambigAux_not_mem contents (maxLen contents + 1) name 1 (by omega)

/-! ## Properties of the digest calculator -/

theorem foldl_chunksOfAux {k : Nat} (hk : 0 < k) :
    ∀ (fuel : Nat) (s a : Str), s.length ≤ fuel →
      (chunksOfAux k fuel s).foldl (fun x y => x ++ y) a = a ++ s := by
  intro fuel
  induction fuel with
  | zero =>
    intro s a hs
    have : s = [] := List.eq_nil_of_length_eq_zero (Nat.le_zero.mp hs)
    subst this
    simp [chunksOfAux]
  | succ n ih =>
    intro s a hs
    by_cases h0 : s = []
    · simp [chunksOfAux, h0]
    · simp only [chunksOfAux, h0, if_neg, List.foldl_cons, ite_false]
      rw [ih (s.drop k) (a ++ s.take k)
        (by
          have hlen : 0 < s.length := List.length_pos.mpr h0
          simp only [List.length_drop]
          omega)]
      rw [List.append_assoc, List.take_append_drop]

/-- Reading in chunks of any positive size accumulates exactly the file's
bytes: the digest input is the content, independent of the chunking. -/
theorem md5Bytes_chunksOf {k : Nat} (hk : 0 < k) (s : Str) :
    md5Bytes (chunksOf k s) = s := by
  unfold md5Bytes chunksOf
  rw [if_neg (Nat.pos_iff_ne_zero.mp hk)]
  simpa using foldl_chunksOfAux hk s.length s [] (le_refl _)

theorem md5Bytes_chunksOf_nil (k : Nat) : md5Bytes (chunksOf k []) = [] := by
  unfold chunksOf
  by_cases hk : k = 0 <;> simp [hk, chunksOfAux, md5Bytes]

/-! ## Characterisation of one traversal step -/

theorem dictFind_append (d : Str) (l1 l2 : List (Str × Str)) :
    dictFind d (l1 ++ l2) = (dictFind d l1).or (dictFind d l2) := by
  induction l1 with
  | nil => simp [dictFind]
  | cons a l ih =>
    obtain ⟨k, v⟩ := a
    by_cases hk : k = d <;> simp [dictFind, hk, ih]

theorem firstWithDigest_append (h : Str → Str) (l1 l2 : List Candidate) (d : Str) :
    firstWithDigest h (l1 ++ l2) d =
      (firstWithDigest h l1 d).or (firstWithDigest h l2 d) := by
  unfold firstWithDigest
  rw [List.find?_append]
  cases List.find? (fun c => eligible h c && (calculate_md5 h c.content 1024 == d)) l1 <;>
    simp

theorem runStep_spec (h : Str → Str) (dupFolder : Str) (st : RunState) (c : Candidate) :
    (eligible h c = false ∧ runStep h dupFolder st c = .ok st) ∨
    (eligible h c = true ∧
      ((dictFind (calculate_md5 h c.content 1024) st.file_hashes = none ∧
         runStep h dupFolder st c =
           .ok { st with file_hashes :=
             st.file_hashes ++ [(calculate_md5 h c.content 1024, joinPath c.root c.name)] }) ∨
       (∃ orig, dictFind (calculate_md5 h c.content 1024) st.file_hashes = some orig ∧
         ((c.statOk = false ∧ runStep h dupFolder st c = .error ()) ∨
          (c.statOk = true ∧
            runStep h dupFolder st c = .ok (duplicateBranch h dupFolder st c orig)))))) := by
  cases h1 : should_ignore_dir c.root with
  | true => exact Or.inl ⟨by simp [eligible, h1], by simp [runStep, h1]⟩
  | false =>
  cases h2 : is_hidden c.name with
  | true => exact Or.inl ⟨by simp [eligible, h2], by simp [runStep, h1, h2]⟩
  | false =>
  cases h3 : endsWithExcluded (lower c.name) with
  | true => exact Or.inl ⟨by simp [eligible, h3], by simp [runStep, h1, h2, h3]⟩
  | false =>
  cases h4 : c.openOk with
  | false => exact Or.inl ⟨by simp [eligible, h4], by simp [runStep, h1, h2, h3, h4]⟩
  | true =>
  by_cases h5 : calculate_md5 h c.content 1024 = failMarker
  · exact Or.inl ⟨by simp [eligible, h5], by simp [runStep, h1, h2, h3, h4, h5]⟩
  · refine Or.inr ⟨by simp [eligible, h1, h2, h3, h4, h5], ?_⟩
    cases h6 : dictFind (calculate_md5 h c.content 1024) st.file_hashes with
    | none =>
      exact Or.inl ⟨rfl, by simp [runStep, h1, h2, h3, h4, h5, h6]⟩
    | some orig =>
      refine Or.inr ⟨orig, rfl, ?_⟩
      cases h7 : c.statOk with
      | false => exact Or.inl ⟨rfl, by simp [runStep, h1, h2, h3, h4, h5, h6, h7]⟩
      | true => exact Or.inr ⟨rfl, by simp [runStep, h1, h2, h3, h4, h5, h6, h7]⟩

theorem firstWithDigest_singleton (h : Str → Str) (c : Candidate) (d : Str) :
    firstWithDigest h [c] d =
      if eligible h c = true ∧ calculate_md5 h c.content 1024 = d
      then some (joinPath c.root c.name) else none := by
  unfold firstWithDigest
  by_cases hd : calculate_md5 h c.content 1024 = d
  · have hbeq : (calculate_md5 h c.content 1024 == d) = true := beq_iff_eq.mpr hd
    by_cases he : eligible h c = true <;> simp [List.find?, he, hbeq, hd]
  · have hbeq : (calculate_md5 h c.content 1024 == d) = false := beq_eq_false_iff_ne.mpr hd
    by_cases he : eligible h c = true <;> simp [List.find?, he, hbeq, hd]

theorem runStep_dict (h : Str → Str) (dupFolder : Str) (st : RunState) (c : Candidate)
    (st1 : RunState) (hs : runStep h dupFolder st c = .ok st1) (d : Str) :
    dictFind d st1.file_hashes =
      (dictFind d st.file_hashes).or (firstWithDigest h [c] d) := by
  rcases runStep_spec h dupFolder st c with
    ⟨he, hok⟩ | ⟨he, ⟨hn, hok⟩ | ⟨orig, ho, ⟨_, hok⟩ | ⟨_, hok⟩⟩⟩
  · rw [hok] at hs
    cases hs
    rw [firstWithDigest_singleton]
    simp [he]
  · rw [hok] at hs
    cases hs
    rw [dictFind_append, firstWithDigest_singleton]
    by_cases hd : calculate_md5 h c.content 1024 = d <;>
      simp [dictFind, he, hd]
  · rw [hok] at hs
    cases hs
  · rw [hok] at hs
    cases hs
    show dictFind d st.file_hashes = _
    cases hf : dictFind d st.file_hashes with
    | some v => simp
    | none =>
      rw [firstWithDigest_singleton]
      have hd : ¬ calculate_md5 h c.content 1024 = d := by
        intro hdd
        rw [hdd, hf] at ho
        cases ho
      simp [hd]

theorem runStep_events (h : Str → Str) (dupFolder : Str) (st : RunState) (c : Candidate)
    (st1 : RunState) (hs : runStep h dupFolder st c = .ok st1) :
    ∀ e ∈ st1.events, e ∈ st.events ∨
      (e.src = joinPath c.root c.name ∧ e.baseName = lower c.name ∧
       e.dstName = disambiguate e.pre e.baseName ∧ e.ok = c.moveOk ∧
       e.digest = calculate_md5 h c.content 1024 ∧
       dictFind e.digest st.file_hashes = some e.original) := by
  rcases runStep_spec h dupFolder st c with
    ⟨he, hok⟩ | ⟨he, ⟨hn, hok⟩ | ⟨orig, ho, ⟨_, hok⟩ | ⟨_, hok⟩⟩⟩
  · rw [hok] at hs; cases hs; exact fun e he2 => Or.inl he2
  · rw [hok] at hs; cases hs; exact fun e he2 => Or.inl he2
  · rw [hok] at hs; cases hs
  · rw [hok] at hs
    cases hs
    intro e he2
    rcases List.mem_append.mp he2 with hold | hnew
    · exact Or.inl hold
    · right
      rcases List.mem_singleton.mp hnew with rfl
      exact ⟨rfl, rfl, rfl, rfl, rfl, ho⟩

theorem runStep_ok_of_statOk (h : Str → Str) (dupFolder : Str) (st : RunState)
    (c : Candidate) (hst : c.statOk = true) :
    ∃ st1, runStep h dupFolder st c = .ok st1 := by
  rcases runStep_spec h dupFolder st c with
    ⟨_, hok⟩ | ⟨_, ⟨_, hok⟩ | ⟨orig, _, ⟨hf, _⟩ | ⟨_, hok⟩⟩⟩
  · exact ⟨st, hok⟩
  · exact ⟨_, hok⟩
  · rw [hst] at hf; cases hf
  · exact ⟨_, hok⟩

theorem runStep_content_none (h : Str → Str) (dupFolder : Str) (st : RunState)
    (c : Candidate) (hc : c.content = none) :
    runStep h dupFolder st c = .ok st := by
  have hm : calculate_md5 h c.content 1024 = failMarker := by rw [hc]; rfl
  rcases runStep_spec h dupFolder st c with ⟨_, hok⟩ | ⟨he, _⟩
  · exact hok
  · exfalso
    revert he
    simp [eligible, hm]

/-! ## Run-level inductions -/

theorem runFiles_inv (h : Str → Str) (dupFolder : Str) :
    ∀ (l pre : List Candidate) (st st' : RunState),
      runFiles h dupFolder st l = .ok st' →
      (∀ d, dictFind d st.file_hashes = firstWithDigest h pre d) →
      (∀ e ∈ st.events, some e.original = firstWithDigest h pre e.digest) →
      (∀ d, dictFind d st'.file_hashes = firstWithDigest h (pre ++ l) d) ∧
      (∀ e ∈ st'.events, some e.original = firstWithDigest h (pre ++ l) e.digest) := by
  intro l
  induction l with
  | nil =>
    intro pre st st' hrun h1 h2
    simp only [runFiles] at hrun
    cases hrun
    simpa using ⟨h1, h2⟩
  | cons c cs ih =>
    intro pre st st' hrun h1 h2
    simp only [runFiles] at hrun
    cases hstep : runStep h dupFolder st c with
    | error er => rw [hstep] at hrun; cases hrun
    | ok st1 =>
      rw [hstep] at hrun
      have key1 : ∀ d, dictFind d st1.file_hashes = firstWithDigest h (pre ++ [c]) d := by
        intro d
        rw [runStep_dict h dupFolder st c st1 hstep d, firstWithDigest_append, h1]
      have key2 : ∀ e ∈ st1.events,
          some e.original = firstWithDigest h (pre ++ [c]) e.digest := by
        intro e he
        rcases runStep_events h dupFolder st c st1 hstep e he with
          hold | ⟨_, _, _, _, _, hor⟩
        · rw [firstWithDigest_append, ← h2 e hold]
          rfl
        · rw [h1 e.digest] at hor
          rw [firstWithDigest_append, hor]
          rfl
      have := ih (pre ++ [c]) st1 st' hrun key1 key2
      simpa [List.append_assoc] using this

theorem runFiles_events (h : Str → Str) (dupFolder : Str) :
    ∀ (l : List Candidate) (st st' : RunState),
      runFiles h dupFolder st l = .ok st' →
      ∀ e ∈ st'.events, e ∈ st.events ∨
        ∃ c, c ∈ l ∧ e.src = joinPath c.root c.name ∧ e.baseName = lower c.name ∧
          e.dstName = disambiguate e.pre e.baseName ∧ e.ok = c.moveOk := by
  intro l
  induction l with
  | nil =>
    intro st st' hrun e he
    simp only [runFiles] at hrun
    cases hrun
    exact Or.inl he
  | cons c cs ih =>
    intro st st' hrun e he
    simp only [runFiles] at hrun
    cases hstep : runStep h dupFolder st c with
    | error er => rw [hstep] at hrun; cases hrun
    | ok st1 =>
      rw [hstep] at hrun
      rcases ih st1 st' hrun e he with h1 | ⟨c2, hc2, hrest⟩
      · rcases runStep_events h dupFolder st c st1 hstep e h1 with
          hold | ⟨ha, hb, hc, hd, _, _⟩
        · exact Or.inl hold
        · exact Or.inr ⟨c, List.mem_cons_self c cs, ha, hb, hc, hd⟩
      · exact Or.inr ⟨c2, List.mem_cons_of_mem c hc2, hrest⟩

theorem runFiles_ok_of_statOk (h : Str → Str) (dupFolder : Str) :
    ∀ (l : List Candidate) (st : RunState), (∀ c ∈ l, c.statOk = true) →
      ∃ st', runFiles h dupFolder st l = .ok st' := by
  intro l
  induction l with
  | nil => intro st _; exact ⟨st, rfl⟩
  | cons c cs ih =>
    intro st hall
    obtain ⟨st1, hstep⟩ :=
      runStep_ok_of_statOk h dupFolder st c (hall c (List.mem_cons_self c cs))
    obtain ⟨st', hrun⟩ := ih st1 fun x hx => hall x (List.mem_cons_of_mem c hx)
    refine ⟨st', ?_⟩
    simp only [runFiles]
    rw [hstep]
    exact hrun

theorem splitOnSep_no_sep {n : Str} (hs : sep ∉ n) : splitOnSep n = [n] := by
  induction n with
  | nil => rfl
  | cons c rest ih =>
    have hc : ¬ c = sep := fun hcc => hs (List.mem_cons.mpr (Or.inl hcc.symm))
    have hrest : sep ∉ rest := fun hm => hs (List.mem_cons_of_mem c hm)
    simp only [splitOnSep]
    rw [if_neg hc, ih hrest]

/-! ## Concrete fixtures for witnesses and counterexamples -/

/-- A concrete stand-in for the hexdigest function: the identity (digests
equal iff contents equal), used only to instantiate theorems. -/
def hW : Str → Str := fun c => c

/-- A hexdigest stand-in of the real output length (32 hex characters). -/
def hLen32 : Str → Str := fun _ => List.replicate 32 'a'

def candA : Candidate :=
  { root := str "r", name := str "a.txt", content := some (str "AAA"),
    openOk := true, statOk := true, moveOk := true, ctime := 0, mtime := 0 }

def candB : Candidate := { candA with root := str "s" }

/-- The record produced when `candB` duplicates `candA`. -/
def recAB : DupRecord :=
  { original_path := str "r/a.txt", duplicate_path := str "s/a.txt",
    moved_to := str "dups/a.txt", file_extension := str ".txt",
    folder_name := str "s", created_date := 0, modified_date := 0 }

/-- The relocation event for that duplicate: `a.txt` was taken, so the file
lands at `a_1.txt`. -/
def evAB : MoveEvent :=
  { original := str "r/a.txt", src := str "s/a.txt", baseName := str "a.txt",
    dstName := str "a_1.txt", pre := [str "a.txt"], ok := true,
    digest := str "AAA" }

/-- Final state of the run on `[candA, candB]` with `a.txt` already in the
duplicates folder. -/
def stAB : RunState :=
  { file_hashes := [(str "AAA", str "r/a.txt")],
    dupContents := [str "a_1.txt", str "a.txt"],
    records := [recAB], events := [evAB] }

def candU1 : Candidate :=
  { root := str "r", name := str "A.txt", content := some (str "Z"),
    openOk := true, statOk := true, moveOk := true, ctime := 0, mtime := 0 }

def candU2 : Candidate := { candU1 with root := str "s" }

def recU : DupRecord :=
  { original_path := str "r/A.txt", duplicate_path := str "s/A.txt",
    moved_to := str "dups/a.txt", file_extension := str ".txt",
    folder_name := str "s", created_date := 0, modified_date := 0 }

def evU : MoveEvent :=
  { original := str "r/A.txt", src := str "s/A.txt", baseName := str "a.txt",
    dstName := str "a.txt", pre := [], ok := true, digest := str "Z" }

def stU : RunState :=
  { file_hashes := [(str "Z", str "r/A.txt")], dupContents := [str "a.txt"],
    records := [recU], events := [evU] }

def candS1 : Candidate :=
  { root := str "r", name := str "b.txt", content := some (str "Q"),
    openOk := true, statOk := true, moveOk := true, ctime := 0, mtime := 0 }

/-- Same content as `candS1`, but `file_path.stat()` fails on it. -/
def candS2 : Candidate := { candS1 with root := str "s", statOk := false }

/-- A file inside a dot-directory, itself plainly named. -/
def candH : Candidate :=
  { root := str ".hidden", name := str "a.txt", content := some (str "B"),
    openOk := true, statOk := true, moveOk := true, ctime := 0, mtime := 0 }

def stH : RunState :=
  { file_hashes := [(str "B", str ".hidden/a.txt")], dupContents := [],
    records := [], events := [] }

/-- A file whose hashing fails. -/
def candNone : Candidate :=
  { root := str "r", name := str "c.txt", content := none,
    openOk := true, statOk := true, moveOk := true, ctime := 0, mtime := 0 }

/-- A filesystem map giving every path the same content. -/
def fsW : Str → Option Str := fun _ => some (str "AAA")

/-! ## Claim theorems -/

/-- C1: the spec claims the disambiguation sequence is `name.ext`,
`name_1.ext`, `name_2.ext`, ..., so a third `a.txt` next to `a.txt` and
`a_1.txt` should become `a_2.txt`. The loop instead recomputes the stem
from the previous candidate (`new_path.stem`), accumulating suffixes: the
chosen name is `a_1_2.txt`, not `a_2.txt`. -/
theorem c1_disambiguation_sequence :
    disambiguate [str "a.txt", str "a_1.txt"] (str "a.txt") = str "a_1_2.txt" ∧
    str "a_1_2.txt" ≠ str "a_2.txt" := by
  exact ⟨by decide, by decide⟩

/-- C2: no relocation overwrites an existing file: for every move event of a
completed run whose move succeeded, the chosen destination name was not
present in the duplicates folder immediately before the move, and
afterwards it is present exactly once. -/
theorem c2_no_overwrite (h : Str → Str) (l : List Candidate) (dupFolder : Str)
    (dupContents0 : List Str) (st : RunState)
    (hrun : find_and_move_duplicates h l dupFolder dupContents0 = .ok st) :
    ∀ e ∈ st.events, e.ok = true →
      e.dstName ∉ e.pre ∧ e.post.count e.dstName = 1 := by
  intro e he hok
  rcases runFiles_events h dupFolder l (initState dupContents0) st hrun e he with
    h0 | ⟨c, _, _, _, hdst, _⟩
  · exact absurd h0 (by simp [initState])
  · have hfree : e.dstName ∉ e.pre := by
      rw [hdst]
      exact disambiguate_not_mem _ _
    refine ⟨hfree, ?_⟩
    unfold MoveEvent.post
    rw [if_pos hok, List.count_cons_self, List.count_eq_zero.mpr hfree]

/-- C2 witness: the concrete run on `[candA, candB]` with `a.txt` already in
the duplicates folder moves the duplicate to the fresh name `a_1.txt`. -/
theorem c2_no_overwrite_witness :
    evAB.dstName ∉ evAB.pre ∧ evAB.post.count evAB.dstName = 1 :=
  c2_no_overwrite hW [candA, candB] (str "dups") [str "a.txt"] stAB rfl evAB
    (by decide) rfl

/-- C3: first-seen-wins: after any completed run the dictionary maps every
digest to the path of the first candidate in traversal order that reached
the lookup with that digest, and every relocation event's original is that
first path — later files with a seen digest are always the duplicate and
never replace the index entry. -/
theorem c3_first_seen_wins (h : Str → Str) (l : List Candidate) (dupFolder : Str)
    (dupContents0 : List Str) (st : RunState)
    (hrun : find_and_move_duplicates h l dupFolder dupContents0 = .ok st) :
    (∀ d, dictFind d st.file_hashes = firstWithDigest h l d) ∧
    (∀ e ∈ st.events, some e.original = firstWithDigest h l e.digest) := by
  have hinv := runFiles_inv h dupFolder l [] (initState dupContents0) st hrun
    (fun d => rfl) (fun e he => absurd he (by simp [initState]))
  simpa using hinv

/-- C3 witness: in the concrete run the digest of "AAA" maps to the first
file `r/a.txt`, and the recorded original of the one event is that path. -/
theorem c3_first_seen_wins_witness :
    dictFind (str "AAA") stAB.file_hashes = firstWithDigest hW [candA, candB] (str "AAA") ∧
    some evAB.original = firstWithDigest hW [candA, candB] evAB.digest :=
  ⟨(c3_first_seen_wins hW [candA, candB] (str "dups") [str "a.txt"] stAB rfl).1 (str "AAA"),
   (c3_first_seen_wins hW [candA, candB] (str "dups") [str "a.txt"] stAB rfl).2 evAB
     (by decide)⟩

/-- C4: the spec claims the record's moved-to field equals the final
destination after disambiguation. The record is appended before the
renaming loop runs: with `a.txt` already in the duplicates folder the
record says `dups/a.txt` while the move actually goes to `dups/a_1.txt`. -/
theorem c4_moved_to_predates_disambiguation :
    find_and_move_duplicates hW [candA, candB] (str "dups") [str "a.txt"] = .ok stAB ∧
    stAB.records.map DupRecord.moved_to = [str "dups/a.txt"] ∧
    stAB.events.map MoveEvent.dstName = [str "a_1.txt"] ∧
    str "dups/a.txt" ≠ joinPath (str "dups") (str "a_1.txt") :=
  ⟨rfl, rfl, rfl, by decide⟩

/-- C5 counterexample: the destination is not built from the duplicate's own
file name: a duplicate named `A.txt` is sent to `dups/a.txt` (the
lowercased name reused from the extension check), not `dups/A.txt`. -/
theorem c5_counterexample :
    find_and_move_duplicates hW [candU1, candU2] (str "dups") [] = .ok stU ∧
    stU.records.map DupRecord.moved_to = [str "dups/a.txt"] ∧
    str "dups/a.txt" ≠ joinPath (str "dups") (str "A.txt") :=
  ⟨rfl, rfl, by decide⟩

/-- C5 amended: for every relocation of a completed run, the
pre-disambiguation destination name is the lowercased file name of the
duplicate candidate, and the final name is that name run through the
renaming loop. -/
theorem c5_destination_from_lowercased_name (h : Str → Str) (l : List Candidate)
    (dupFolder : Str) (dupContents0 : List Str) (st : RunState)
    (hrun : find_and_move_duplicates h l dupFolder dupContents0 = .ok st) :
    ∀ e ∈ st.events, ∃ c, c ∈ l ∧ e.src = joinPath c.root c.name ∧
      e.baseName = lower c.name ∧ e.dstName = disambiguate e.pre (lower c.name) := by
  intro e he
  rcases runFiles_events h dupFolder l (initState dupContents0) st hrun e he with
    h0 | ⟨c, hc, ha, hb, hd, _⟩
  · exact absurd h0 (by simp [initState])
  · exact ⟨c, hc, ha, hb, by rw [hd, hb]⟩

/-- C5 witness: the event of the concrete `A.txt` run comes from `candU2`
with base name `a.txt`. -/
theorem c5_destination_from_lowercased_name_witness :
    ∃ c, c ∈ [candU1, candU2] ∧ evU.src = joinPath c.root c.name ∧
      evU.baseName = lower c.name ∧ evU.dstName = disambiguate evU.pre (lower c.name) :=
  c5_destination_from_lowercased_name hW [candU1, candU2] (str "dups") [] stU rfl evU
    (by decide)

/-- C6 counterexample: a single file whose `stat()` fails while its
duplicate record is being built aborts the whole run with an uncaught
error — the two `file_path.stat()` calls sit outside every `try`. -/
theorem c6_counterexample :
    candS2.statOk = false ∧
    find_and_move_duplicates hW [candS1, candS2] (str "dups") [] = .error () :=
  ⟨rfl, rfl⟩

/-- C6 amended: open failures, read failures during hashing and move
failures are all handled locally (any run over candidates whose `stat`
succeeds completes, whatever the other per-file outcomes are); only a
metadata (`stat`) failure on a confirmed duplicate can abort the run. -/
theorem c6_no_abort_when_stat_succeeds (h : Str → Str) (l : List Candidate)
    (dupFolder : Str) (dupContents0 : List Str)
    (hall : ∀ c ∈ l, c.statOk = true) :
    ∃ st, find_and_move_duplicates h l dupFolder dupContents0 = .ok st :=
  runFiles_ok_of_statOk h dupFolder l (initState dupContents0) hall

/-- C6 witness: the concrete duplicate-producing run completes. -/
theorem c6_no_abort_when_stat_succeeds_witness :
    ∃ st, find_and_move_duplicates hW [candA, candB] (str "dups") [str "a.txt"] = .ok st :=
  c6_no_abort_when_stat_succeeds hW [candA, candB] (str "dups") [str "a.txt"] (by decide)

/-- C7 counterexample: a file whose containing directory is a dot-directory
but whose own name is plain is not excluded by the hidden rule at all: it
is hashed and inserted into the index, although a segment of its path
starts with a marker — `is_hidden` is applied to the bare file name only. -/
theorem c7_counterexample :
    is_hidden (joinPath (str ".hidden") (str "a.txt")) = true ∧
    find_and_move_duplicates hW [candH] (str "dups") [] = .ok stH ∧
    stH.file_hashes = [(str "B", joinPath candH.root candH.name)] :=
  ⟨by decide, rfl, by decide⟩

/-- C7 amended: on a bare file name (no separator) the hidden rule reduces
to checking whether the name itself starts with one of the markers
`.`, `~`, `_`; directory segments are never consulted, because the
traversal passes only the file name to `is_hidden`. -/
theorem c7_hidden_checks_name_only (n : Str) (hs : sep ∉ n) :
    is_hidden n = startsWithMarker n := by
  unfold is_hidden
  rw [splitOnSep_no_sep hs]
  simp [List.any]

/-- C7 witness: on the name `a.txt` the rule is the first-character check. -/
theorem c7_hidden_checks_name_only_witness :
    sep ∉ str "a.txt" ∧ is_hidden (str "a.txt") = startsWithMarker (str "a.txt") :=
  ⟨by decide, c7_hidden_checks_name_only (str "a.txt") (by decide)⟩

/-- C8: the digest calculator is total at its boundary: a read failure is
converted to the `'fail'` marker, a successful read of content `c` with a
positive chunk size yields the digest of exactly `c`, and a zero-byte file
yields the digest of the empty content. -/
theorem c8_digest_total (h : Str → Str) (content : Option Str) (chunk_size : Nat) :
    (content = none → calculate_md5 h content chunk_size = failMarker) ∧
    (∀ c, content = some c → 0 < chunk_size →
      calculate_md5 h content chunk_size = h c) ∧
    calculate_md5 h (some []) chunk_size = h [] := by
  refine ⟨?_, ?_, ?_⟩
  · intro hc
    rw [hc]
    rfl
  · intro c hc hk
    rw [hc]
    simp only [calculate_md5]
    rw [md5Bytes_chunksOf hk]
  · simp only [calculate_md5]
    rw [md5Bytes_chunksOf_nil]

/-- C8 witness: concrete failure, content and empty-content digests. -/
theorem c8_digest_total_witness :
    calculate_md5 hW none 1024 = failMarker ∧
    calculate_md5 hW (some (str "AAA")) 1024 = hW (str "AAA") ∧
    calculate_md5 hW (some []) 1024 = hW [] :=
  ⟨(c8_digest_total hW none 1024).1 rfl,
   (c8_digest_total hW (some (str "AAA")) 1024).2.1 (str "AAA") rfl (by decide),
   (c8_digest_total hW (some []) 1024).2.2⟩

/-- C9: digest determinism: two files with identical content yield the same
digest, whatever their paths and whatever (positive) chunk sizes the two
computations stream with. -/
theorem c9_digest_deterministic (h : Str → Str) (fileSystem : Str → Option Str)
    (p1 p2 : Str) (c : Str) (k1 k2 : Nat)
    (h1 : fileSystem p1 = some c) (h2 : fileSystem p2 = some c)
    (hk1 : 0 < k1) (hk2 : 0 < k2) :
    calculate_md5_file h fileSystem p1 k1 = calculate_md5_file h fileSystem p2 k2 := by
  unfold calculate_md5_file
  rw [h1, h2]
  simp only [calculate_md5]
  rw [md5Bytes_chunksOf hk1, md5Bytes_chunksOf hk2]

/-- C9 witness: two distinct paths with the same content, hashed with
different chunk sizes, agree. -/
theorem c9_digest_deterministic_witness :
    calculate_md5_file hW fsW (str "p1") 1024 = calculate_md5_file hW fsW (str "p2") 512 :=
  c9_digest_deterministic hW fsW (str "p1") (str "p2") (str "AAA") 1024 512 rfl rfl
    (by decide) (by decide)

/-- C10: the failure marker is never a genuine digest: an MD5 hexdigest has
32 characters while `'fail'` has 4, so a successfully read file never
produces the marker; and a file whose hashing fails leaves the state
untouched — it is neither inserted into the index nor matched as a
duplicate. -/
theorem c10_fail_marker_distinct (h : Str → Str) (hlen : ∀ b, (h b).length = 32) :
    (∀ c k, calculate_md5 h (some c) k ≠ failMarker) ∧
    (∀ dupFolder st c, c.content = none → runStep h dupFolder st c = .ok st) := by
  constructor
  · intro c k heq
    have h32 : (calculate_md5 h (some c) k).length = 32 := by
      unfold calculate_md5
      exact hlen _
    rw [heq] at h32
    exact absurd h32 (by decide)
  · intro dupFolder st c hc
    exact runStep_content_none h dupFolder st c hc

/-- C10 witness: with a 32-character hexdigest function, a read file's
digest differs from the marker, and a hash-failing candidate is a no-op. -/
theorem c10_fail_marker_distinct_witness :
    calculate_md5 hLen32 (some (str "AAA")) 1024 ≠ failMarker ∧
    runStep hLen32 (str "dups") (initState []) candNone = .ok (initState []) :=
  ⟨(c10_fail_marker_distinct hLen32 (fun b => by simp [hLen32])).1 (str "AAA") 1024,
   (c10_fail_marker_distinct hLen32 (fun b => by simp [hLen32])).2 (str "dups")
     (initState []) candNone rfl⟩

end FindDup
